import Mathlib

/-!
Shallow embedding of the backtesting core of the A-Daily-Quant repository:
`src/backtester/account.py` (VirtualAccount), `src/backtester/engine.py`
(BacktestEngine) and `src/backtester/analysis.py`
(calculate_performance_metrics).

Modelling conventions:
* Python floats are modelled as exact rationals (ℚ); Python ints as ℤ/ℕ.
* Dates are abstracted as natural numbers ordered like the calendar dates
  used by the code (pandas timestamps / formatted date strings are opaque
  ordered labels for the logic being verified).
* Python dicts (holdings, mark-price maps) are insertion-ordered
  association lists; `List.lookup` is dict lookup, `setPos` is
  update-or-append (dict item assignment), `erasePos` is `del`.
* `int(x)` in Python truncates toward zero: `truncQ`.
* `round(x, 2)` in Python rounds half-to-even: `roundHalfEven` / `round2`.
* The composite score of a daily row (`calculate_composite_score`, an
  external SignalProvider per the spec) is carried as a `score` field of
  the row, since it is a deterministic function of the row.
-/

namespace ADailyQuant

/-- A holdings entry: `{'volume': int, 'cost_price': float}`. -/
structure Position where
  volume : ℤ
  cost_price : ℚ
  deriving Repr, DecidableEq

/-- Trade action tag: `'BUY'` or `'SELL'`. -/
inductive TAction where
  | BUY
  | SELL
  deriving Repr, DecidableEq

/-- One record of `VirtualAccount.trades`.  `pnl` is present on SELL
records only, hence an `Option`. -/
structure Trade where
  date : ℕ
  action : TAction
  symbol : String
  price : ℚ
  volume : ℤ
  fee : ℚ
  amount : ℚ
  pnl : Option ℚ
  deriving Repr, DecidableEq

/-- One record of `VirtualAccount.history` (a daily equity snapshot). -/
structure Snapshot where
  date : ℕ
  total_value : ℚ
  cash : ℚ
  holdings_value : ℚ
  deriving Repr, DecidableEq

/-- The `VirtualAccount` state (`src/backtester/account.py`). -/
structure Account where
  initial_capital : ℚ
  cash : ℚ
  holdings : List (String × Position)
  trades : List Trade
  history : List Snapshot
  commission_rate : ℚ
  min_commission : ℚ
  stamp_duty_rate : ℚ
  deriving Repr, DecidableEq

/-- Constructor `VirtualAccount.__init__`: fresh account with the default fee
structure (0.03% commission, 5 RMB minimum, 0.1% stamp duty). -/
def mkAccount (init : ℚ) : Account :=
  { initial_capital := init
    cash := init
    holdings := []
    trades := []
    history := []
    commission_rate := 3 / 10000
    min_commission := 5
    stamp_duty_rate := 1 / 1000 }

/-- Dict item assignment `holdings[symbol] = pos`: update in place if the
key is present, else append (Python dicts are insertion ordered). -/
def setPos : List (String × Position) → String → Position → List (String × Position)
  | [], k, v => [(k, v)]
  | (k', v') :: t, k, v => if k' = k then (k, v) :: t else (k', v') :: setPos t k v

/-- Dict deletion `del holdings[symbol]`: removes the entry. -/
def erasePos : List (String × Position) → String → List (String × Position)
  | [], _ => []
  | (k', v') :: t, k => if k' = k then t else (k', v') :: erasePos t k

/-- Embedding of `VirtualAccount.calculate_commission`. -/
def calculate_commission (a : Account) (amount : ℚ) : ℚ :=
  max (amount * a.commission_rate) a.min_commission

/-- Embedding of `VirtualAccount.calculate_tax` (stamp duty, sell side only). -/
def calculate_tax (a : Account) (amount : ℚ) : ℚ :=
  amount * a.stamp_duty_rate

/-- Embedding of `VirtualAccount.buy(date, symbol, price, volume)`.  Returns the
success flag together with the next state. -/
def buy (a : Account) (date : ℕ) (symbol : String) (price : ℚ) (volume : ℤ) :
    Bool × Account :=
  if volume ≤ 0 ∨ price ≤ 0 then (false, a)
  else
    let amount := price * (volume : ℚ)
    let commission := calculate_commission a amount
    let total_cost := amount + commission
    if a.cash < total_cost then (false, a)
    else
      let current := (List.lookup symbol a.holdings).getD ⟨0, 0⟩
      let current_vol := current.volume
      let current_cost := current.cost_price
      let new_vol := current_vol + volume
      let new_avg_cost :=
        ((current_vol : ℚ) * current_cost + (volume : ℚ) * price) / (new_vol : ℚ)
      (true,
        { a with
          cash := a.cash - total_cost
          holdings := setPos a.holdings symbol ⟨new_vol, new_avg_cost⟩
          trades := a.trades ++
            [{ date := date, action := .BUY, symbol := symbol, price := price,
               volume := volume, fee := commission, amount := amount, pnl := none }] })

/-- Embedding of `VirtualAccount.sell(date, symbol, price, volume=0)`.  Volume 0 (or
any volume outside (0, held]) means sell-all. -/
def sell (a : Account) (date : ℕ) (symbol : String) (price : ℚ) (volume : ℤ) :
    Bool × Account :=
  match List.lookup symbol a.holdings with
  | none => (false, a)
  | some pos =>
    let current_vol := pos.volume
    let v := if volume ≤ 0 ∨ current_vol < volume then current_vol else volume
    if v = 0 then (false, a)
    else
      let amount := price * (v : ℚ)
      let commission := calculate_commission a amount
      let tax := calculate_tax a amount
      let net_income := amount - commission - tax
      let cost_price := pos.cost_price
      let remaining_vol := current_vol - v
      (true,
        { a with
          cash := a.cash + net_income
          holdings :=
            if 0 < remaining_vol then
              setPos a.holdings symbol ⟨remaining_vol, cost_price⟩
            else erasePos a.holdings symbol
          trades := a.trades ++
            [{ date := date, action := .SELL, symbol := symbol, price := price,
               volume := v, fee := commission + tax, amount := amount,
               pnl := some ((price - cost_price) * (v : ℚ)) }] })

/-- The holdings-valuation loop of `update_daily_stats`.  The Python
guard `if price:` is truthiness: a mapped price of `0` (or an absent
symbol) falls back to the cost price. -/
def holdings_value_truthy (holdings : List (String × Position))
    (prices : List (String × ℚ)) : ℚ :=
  holdings.foldl
    (fun acc kv =>
      match List.lookup kv.fst prices with
      | some p => if p ≠ 0 then acc + (kv.snd.volume : ℚ) * p
                  else acc + (kv.snd.volume : ℚ) * kv.snd.cost_price
      | none => acc + (kv.snd.volume : ℚ) * kv.snd.cost_price) 0

/-- The holdings-valuation loop of `get_total_value`:
`current_prices.get(symbol, cost_price)` uses the mapped price whenever
the key is present (even if it is `0`). -/
def holdings_value_getD (holdings : List (String × Position))
    (prices : List (String × ℚ)) : ℚ :=
  holdings.foldl
    (fun acc kv =>
      acc + (kv.snd.volume : ℚ) * ((List.lookup kv.fst prices).getD kv.snd.cost_price)) 0

/-- Embedding of `VirtualAccount.update_daily_stats(date, current_prices)`. -/
def update_daily_stats (a : Account) (date : ℕ) (prices : List (String × ℚ)) :
    Account :=
  let holdings_value := holdings_value_truthy a.holdings prices
  let total_value := a.cash + holdings_value
  { a with history := a.history ++
      [{ date := date, total_value := total_value, cash := a.cash,
         holdings_value := holdings_value }] }

/-- Embedding of `VirtualAccount.get_total_value(current_prices)`: pure query. -/
def get_total_value (a : Account) (prices : List (String × ℚ)) : ℚ :=
  a.cash + holdings_value_getD a.holdings prices

/-! ### Sequences of ledger operations

An abstract call trace against the account (buy/sell calls with arbitrary
arguments), used to state and settle invariants quantified over "every
finite sequence of buy and sell calls". -/

/-- One external call into the ledger. -/
inductive Op where
  | opBuy (date : ℕ) (symbol : String) (price : ℚ) (volume : ℤ)
  | opSell (date : ℕ) (symbol : String) (price : ℚ) (volume : ℤ)
  deriving Repr, DecidableEq

/-- Apply one call, keeping only the next state (return flags discarded,
as a caller that ignores them would). -/
def applyOp (a : Account) : Op → Account
  | .opBuy d s p v => (buy a d s p v).snd
  | .opSell d s p v => (sell a d s p v).snd

/-- Run a whole call trace. -/
def runOps (a : Account) (ops : List Op) : Account :=
  ops.foldl applyOp a

/-- The net income a `sell` call would credit to cash: `0` on the failure
paths (unknown symbol or zero effective volume), and
`amount − commission − tax` at the clamped volume otherwise. -/
def netIncome (a : Account) (symbol : String) (price : ℚ) (volume : ℤ) : ℚ :=
  match List.lookup symbol a.holdings with
  | none => 0
  | some pos =>
    let current_vol := pos.volume
    let v := if volume ≤ 0 ∨ current_vol < volume then current_vol else volume
    if v = 0 then 0
    else
      let amount := price * (v : ℚ)
      amount - calculate_commission a amount - calculate_tax a amount

/-- Every sell in the trace, executed at its place in the trace, credits a
non-negative net income (its gross proceeds cover commission plus tax). -/
def sellsCoverFees (a : Account) : List Op → Bool
  | [] => true
  | op :: t =>
    (match op with
     | .opBuy _ _ _ _ => true
     | .opSell _ s p v => decide (0 ≤ netIncome a s p v)) && sellsCoverFees (applyOp a op) t

/-! ### BacktestEngine (`src/backtester/engine.py`)

A daily row of the indicator-enriched history.  `score` is the composite
score `calculate_composite_score` returns for this row (the external
SignalProvider of the spec); `volRat` is the `volume_ratio` column. -/

structure Row where
  date : ℕ
  close : ℚ
  ma20 : ℚ
  volRat : ℚ
  score : ℚ
  deriving Repr, DecidableEq

/-- Model of Python `int(x)`: truncation toward zero. -/
def truncQ (q : ℚ) : ℤ :=
  if 0 ≤ q then ⌊q⌋ else ⌈q⌉

/-- The decision part of one day of `BacktestEngine.run` (single-symbol
mode, engine.py lines 103–125): entry, exit or hold. -/
def singleDecision (symbol : String) (a : Account) (row : Row) : Account :=
  let current_holdings := ((List.lookup symbol a.holdings).getD ⟨0, 0⟩).volume
  if current_holdings = 0 then
    if 75 ≤ row.score ∧ row.ma20 < row.close then
      let amount_to_invest := a.cash * (95 / 100)
      if 2000 < amount_to_invest then
        let vol := truncQ (amount_to_invest / row.close / 100) * 100
        if 0 < vol then (buy a row.date symbol row.close vol).snd else a
      else a
    else a
  else if 0 < current_holdings then
    if row.score < 45 ∨ row.close < row.ma20 * (95 / 100) then
      (sell a row.date symbol row.close 0).snd
    else a
  else a

/-- One full day of single-symbol mode: decision, then the unconditional
`update_daily_stats` with that day's close. -/
def singleDay (symbol : String) (a : Account) (row : Row) : Account :=
  update_daily_stats (singleDecision symbol a row) row.date [(symbol, row.close)]

/-- The result dict of `BacktestEngine.run` / `run_portfolio`. -/
structure RunResult where
  final_value : ℚ
  trades : ℕ
  history : List Snapshot
  deriving Repr, DecidableEq

/-- Embedding of `BacktestEngine.run(symbol)`: `bars` is the cached full history for
the symbol (already indicator-enriched).  Fewer than 60 bars, or an empty
set of trading dates in `[startD, endD]`, returns the empty result
(`none`).  Otherwise the day loop runs and the result dict is built. -/
def run (symbol : String) (bars : List Row) (startD endD : ℕ) (a : Account) :
    Option RunResult × Account :=
  if bars.length < 60 then (none, a)
  else
    let sim := bars.filter (fun r => decide (startD ≤ r.date) && decide (r.date ≤ endD))
    if sim.isEmpty then (none, a)
    else
      let a2 := sim.foldl (singleDay symbol) a
      (some
        { final_value :=
            match a2.history.getLast? with
            | some s => s.total_value
            | none => a2.initial_capital
          trades := a2.trades.length
          history := a2.history }, a2)

/-! Portfolio mode buy phase (engine.py lines 198–243). -/

/-- A buy candidate as collected into `candidates`. -/
structure Cand where
  symbol : String
  score : ℚ
  price : ℚ
  volRat : ℚ
  deriving Repr, DecidableEq

/-- Relation `candGe c d`: candidate `c` ranks at least as high as `d` under the
key `(score, vol_ratio)` compared descending (Python
`candidates.sort(key=..., reverse=True)`). -/
def candGe (c d : Cand) : Prop :=
  d.score < c.score ∨ (d.score = c.score ∧ d.volRat ≤ c.volRat)

instance : DecidableRel candGe := fun c d => by
  unfold candGe; infer_instance

instance : IsTotal Cand candGe where
  total c d := by
    unfold candGe
    rcases lt_trichotomy c.score d.score with h | h | h
    · exact Or.inr (Or.inl h)
    · rcases le_total d.volRat c.volRat with hv | hv
      · exact Or.inl (Or.inr ⟨h.symm, hv⟩)
      · exact Or.inr (Or.inr ⟨h, hv⟩)
    · exact Or.inl (Or.inl h)

instance : IsTrans Cand candGe where
  trans c d e := by
    unfold candGe
    rintro (h1 | ⟨h1, h1v⟩) (h2 | ⟨h2, h2v⟩)
    · exact Or.inl (h2.trans h1)
    · exact Or.inl (h2 ▸ h1)
    · exact Or.inl (h1 ▸ h2)
    · exact Or.inr ⟨h2.trans h1, h2v.trans h1v⟩

/-- The stable descending sort of the candidate list: Python's stable
`sort(key=lambda x: (x['score'], x['vol_ratio']), reverse=True)`. -/
def sortCands (l : List Cand) : List Cand :=
  List.insertionSort candGe l

/-- Candidate collection (engine.py lines 204–224): scan the pool in
order, skip held symbols and symbols without a row today, keep those with
`score >= 80 and ma20 < close`.  `dayRow` gives today's row per symbol. -/
def collectCands (symbols : List String) (dayRow : String → Option Row)
    (a : Account) : List Cand :=
  symbols.filterMap fun s =>
    if (List.lookup s a.holdings).isSome then none
    else
      match dayRow s with
      | none => none
      | some r =>
        if 80 ≤ r.score ∧ r.ma20 < r.close then
          some { symbol := s, score := r.score, price := r.close, volRat := r.volRat }
        else none

/-- The buy loop over the top candidates (engine.py lines 230–243),
threading the account and the mutable `free_slots`. -/
def buyLoop (date : ℕ) (top : List Cand) (st : Account × ℤ) : Account × ℤ :=
  top.foldl
    (fun st c =>
      let amount_per_slot := st.1.cash / (st.2 : ℚ)
      if 5000 < amount_per_slot then
        let vol := truncQ (amount_per_slot / c.price / 100) * 100
        if 0 < vol then
          let res := buy st.1 date c.symbol c.price vol
          (res.snd, if res.fst then st.2 - 1 else st.2)
        else st
      else st) st

/-- The whole buy phase of one portfolio-mode day (engine.py lines
198–243). -/
def buyPhase (date : ℕ) (symbols : List String) (dayRow : String → Option Row)
    (max_positions : ℕ) (a : Account) : Account :=
  let free_slots : ℤ := (max_positions : ℤ) - (a.holdings.length : ℤ)
  if 0 < free_slots then
    let candidates := collectCands symbols dayRow a
    let ranked := sortCands candidates
    (buyLoop date (ranked.take free_slots.toNat) (a, free_slots)).fst
  else a

/-! ### PerformanceAnalyzer (`src/backtester/analysis.py`)

`calculate_performance_metrics` is modelled for its ℚ-expressible fields;
the `cagr_pct` field involves a real-valued float power
`(final/initial) ** (365/days)` and is not modelled. -/

/-- Python's `round` (round half to even), to integer. -/
def roundHalfEven (q : ℚ) : ℤ :=
  let f := q - (⌊q⌋ : ℚ)
  if f < 1 / 2 then ⌊q⌋
  else if 1 / 2 < f then ⌊q⌋ + 1
  else if ⌊q⌋ % 2 = 0 then ⌊q⌋ else ⌊q⌋ + 1

/-- Model of Python `round(q, 2)`. -/
def round2 (q : ℚ) : ℚ :=
  (roundHalfEven (q * 100) : ℚ) / 100

/-- The running-peak drawdown series: `m` is the cumulative maximum so
far; each value contributes `(v − peak)/peak` (analysis.py lines 31–32). -/
def drawdownsAux (m : ℚ) : List ℚ → List ℚ
  | [] => []
  | v :: t =>
    let peak := max m v
    (v - peak) / peak :: drawdownsAux peak t

/-- The series `df['drawdown']` for a value series (the cumulative maximum starts at
the first value). -/
def drawdowns : List ℚ → List ℚ
  | [] => []
  | v :: t => drawdownsAux v (v :: t)

/-- Embedding of `series.min()` of a non-empty list (0 on the empty list, unused). -/
def listMin : List ℚ → ℚ
  | [] => 0
  | v :: t => t.foldl min v

/-- The ℚ-expressible fields of the metrics dict. -/
structure Metrics where
  initial_capital : ℚ
  final_value : ℚ
  total_return_pct : ℚ
  max_drawdown_pct : ℚ
  deriving Repr, DecidableEq

/-- Embedding of `calculate_performance_metrics(history, initial_capital)` (analysis.py
lines 8–41, minus the unmodelled `cagr_pct`).  The `history` list is
date-ordered by construction (the ledger appends day by day), so the
`sort_values('date')` step is the identity and is not repeated here. -/
def calculate_performance_metrics (history : List Snapshot) (initial_capital : ℚ) :
    Option Metrics :=
  match history with
  | [] => none
  | _ =>
    let values := history.map Snapshot.total_value
    let final_value := (values.getLast?).getD 0
    let total_return_pct := (final_value - initial_capital) / initial_capital * 100
    let max_drawdown := listMin (drawdowns values) * 100
    some
      { initial_capital := initial_capital
        final_value := round2 final_value
        total_return_pct := round2 total_return_pct
        max_drawdown_pct := round2 max_drawdown }

/-! ### Concrete fixtures used by witnesses and counterexamples -/

/-- A fresh account with every fee rate set to zero (the fee model of the
round-trip property). -/
def zeroFee (init : ℚ) : Account :=
  { mkAccount init with commission_rate := 0, min_commission := 0, stamp_duty_rate := 0 }

/-- An account state holding 100 shares of "A" at cost 10 with 500 cash
(reachable, e.g., by buying from suitable initial capital). -/
def demoHeld : Account :=
  { mkAccount 2000 with cash := 500, holdings := [("A", ⟨100, 10⟩)] }

/-- Sixty daily bars, dates 0–59, flat close 10 below its MA20, score 0
(no signal ever fires). -/
def demoBars : List Row :=
  (List.range 60).map fun i => { date := i, close := 10, ma20 := 20, volRat := 1, score := 0 }

/-- The equity sequence 100000, 120000, 90000, 110000 of the drawdown
example. -/
def demoHist : List Snapshot :=
  [⟨0, 100000, 0, 0⟩, ⟨1, 120000, 0, 0⟩, ⟨2, 90000, 0, 0⟩, ⟨3, 110000, 0, 0⟩]

/-- A two-day equity sequence with a drawdown of one part in 10⁵, whose
percentage is rounded away by `round(x, 2)`. -/
def demoHist2 : List Snapshot :=
  [⟨0, 100000, 0, 0⟩, ⟨1, 99999, 0, 0⟩]

/-- Portfolio-day data: "A" scores 80 with volume ratio 2, "B" scores 85
with volume ratio 1.5; both qualify (close 10 above MA20 5). -/
def dayRowScore : String → Option Row := fun s =>
  if s = "A" then some { date := 0, close := 10, ma20 := 5, volRat := 2, score := 80 }
  else if s = "B" then some { date := 0, close := 10, ma20 := 5, volRat := 3 / 2, score := 85 }
  else none

/-- Portfolio-day data: "A" and "B" both score 85; volume ratios 2 and
1.5. -/
def dayRowTie : String → Option Row := fun s =>
  if s = "A" then some { date := 0, close := 10, ma20 := 5, volRat := 2, score := 85 }
  else if s = "B" then some { date := 0, close := 10, ma20 := 5, volRat := 3 / 2, score := 85 }
  else none

/-! ## Theorems -/

/-- A failed `buy` (false flag) returns the state it was given. -/
lemma buy_fail_eq (a : Account) (d : ℕ) (s : String) (p : ℚ) (v : ℤ) :
    (buy a d s p v).fst = false → (buy a d s p v).snd = a := by
  intro h
  by_cases h1 : v ≤ 0 ∨ p ≤ 0
  · simp [buy, h1]
  · by_cases h2 : a.cash < p * (v : ℚ) + calculate_commission a (p * (v : ℚ))
    · simp [buy, h1, h2]
    · exfalso
      simp [buy, h1, h2] at h

/-- A failed `sell` (false flag) returns the state it was given. -/
lemma sell_fail_eq (a : Account) (d : ℕ) (s : String) (p : ℚ) (v : ℤ) :
    (sell a d s p v).fst = false → (sell a d s p v).snd = a := by
  intro h
  rcases hl : List.lookup s a.holdings with _ | pos
  · simp [sell, hl]
  · by_cases h1 : (if v ≤ 0 ∨ pos.volume < v then pos.volume else v) = 0
    · simp [sell, hl, h1]
    · exfalso
      simp [sell, hl, h1] at h

/-- Claim C2 (confirmed): whenever `buy` or `sell` returns false (buy with
non-positive volume or price or insufficient cash; sell on a symbol with
no open position), cash, holdings, trades and equity history are all
exactly unchanged — the whole state returned is the state passed in. -/
theorem claim_C2 (a : Account) (d : ℕ) (s : String) (p : ℚ) (v : ℤ) :
    ((buy a d s p v).fst = false →
      (buy a d s p v).snd.cash = a.cash ∧
      (buy a d s p v).snd.holdings = a.holdings ∧
      (buy a d s p v).snd.trades = a.trades ∧
      (buy a d s p v).snd.history = a.history ∧
      (buy a d s p v).snd = a) ∧
    ((sell a d s p v).fst = false →
      (sell a d s p v).snd.cash = a.cash ∧
      (sell a d s p v).snd.holdings = a.holdings ∧
      (sell a d s p v).snd.trades = a.trades ∧
      (sell a d s p v).snd.history = a.history ∧
      (sell a d s p v).snd = a) := by
  constructor
  · intro h
    have := buy_fail_eq a d s p v h
    simp [this]
  · intro h
    have := sell_fail_eq a d s p v h
    simp [this]

/-- Witness for C2: a concrete failing buy (insufficient cash) and a
concrete failing sell (unheld symbol) leave the account untouched. -/
theorem claim_C2_witness :
    ((buy (mkAccount 100) 0 "A" 10 100).fst = false ∧
      (buy (mkAccount 100) 0 "A" 10 100).snd = mkAccount 100) ∧
    ((sell (mkAccount 100) 0 "A" 10 100).fst = false ∧
      (sell (mkAccount 100) 0 "A" 10 100).snd = mkAccount 100) := by
  have hb : (buy (mkAccount 100) 0 "A" 10 100).fst = false := by
    norm_num [buy, mkAccount, calculate_commission]
  have hs : (sell (mkAccount 100) 0 "A" 10 100).fst = false := by
    norm_num [sell, mkAccount, List.lookup]
  exact ⟨⟨hb, ((claim_C2 (mkAccount 100) 0 "A" 10 100).1 hb).2.2.2.2⟩,
    ⟨hs, ((claim_C2 (mkAccount 100) 0 "A" 10 100).2 hs).2.2.2.2⟩⟩

/-- Lookup misses when the key is not among the stored keys. -/
lemma lookup_eq_none_of_not_mem :
    ∀ (l : List (String × Position)) (s : String),
      s ∉ l.map Prod.fst → List.lookup s l = none := by
  intro l
  induction l with
  | nil => intro s _; rfl
  | cons kv t ih =>
    intro s h
    simp only [List.map_cons, List.mem_cons, not_or] at h
    simp [List.lookup, beq_eq_false_iff_ne.mpr h.1, ih s h.2]

/-- With duplicate-free keys (as in a Python dict), erasing a key makes
its lookup miss. -/
lemma lookup_erasePos_self :
    ∀ (l : List (String × Position)) (s : String),
      (l.map Prod.fst).Nodup → List.lookup s (erasePos l s) = none := by
  intro l
  induction l with
  | nil => intro s _; rfl
  | cons kv t ih =>
    intro s hnd
    simp only [List.map_cons, List.nodup_cons] at hnd
    by_cases hk : kv.fst = s
    · subst hk
      show List.lookup kv.fst (erasePos (kv :: t) kv.fst) = none
      have : erasePos (kv :: t) kv.fst = t := by
        rcases kv with ⟨k, v⟩
        simp [erasePos]
      rw [this]
      exact lookup_eq_none_of_not_mem t kv.fst hnd.1
    · have : erasePos (kv :: t) s = kv :: erasePos t s := by
        rcases kv with ⟨k, v⟩
        simp only at hk
        simp [erasePos, hk]
      rw [this]
      rcases kv with ⟨k, v⟩
      simp only at hk
      have hne : s ≠ k := fun hsk => hk hsk.symm
      simp [List.lookup, beq_eq_false_iff_ne.mpr hne, ih s hnd.2]

/-- Claim C6 (confirmed): `sell` fails on an unheld symbol; a held symbol
sold with volume ≤ 0 or above the held volume is clamped to the full held
volume, the whole position is liquidated and the holdings entry removed. -/
theorem claim_C6 (a : Account) (d : ℕ) (s : String) (p : ℚ) (v : ℤ) :
    (List.lookup s a.holdings = none → sell a d s p v = (false, a)) ∧
    (∀ pos, List.lookup s a.holdings = some pos → 0 < pos.volume →
      (v ≤ 0 ∨ pos.volume < v) → (a.holdings.map Prod.fst).Nodup →
      (sell a d s p v).fst = true ∧
      ((sell a d s p v).snd.trades.getLast?).map Trade.volume = some pos.volume ∧
      List.lookup s ((sell a d s p v).snd.holdings) = none) := by
  constructor
  · intro h
    simp [sell, h]
  · intro pos hl hvol hcl hnd
    have hv0 : ¬pos.volume = 0 := by omega
    simp only [sell, hl]
    rw [if_pos hcl, if_neg hv0]
    refine ⟨rfl, by simp, ?_⟩
    have hrem : ¬(0 : ℤ) < pos.volume - pos.volume := by omega
    simp only [hrem, if_false]
    exact lookup_erasePos_self a.holdings s hnd

/-- Witness for C6: selling the held 100-share position of "A" with
volume 0 clamps to 100, succeeds, and removes the entry. -/
theorem claim_C6_witness :
    List.lookup "A" demoHeld.holdings = some ⟨100, 10⟩ ∧
    (0 : ℤ) < (100 : ℤ) ∧ ((0 : ℤ) ≤ 0 ∨ (100 : ℤ) < 0) ∧
    (demoHeld.holdings.map Prod.fst).Nodup ∧
    ((sell demoHeld 0 "A" 7 0).fst = true ∧
      ((sell demoHeld 0 "A" 7 0).snd.trades.getLast?).map Trade.volume = some 100 ∧
      List.lookup "A" ((sell demoHeld 0 "A" 7 0).snd.holdings) = none) := by
  have h1 : List.lookup "A" demoHeld.holdings = some ⟨100, 10⟩ := by
    simp [demoHeld, mkAccount, List.lookup]
  have hnd : (demoHeld.holdings.map Prod.fst).Nodup := by
    simp [demoHeld, mkAccount]
  exact ⟨h1, by norm_num, Or.inl le_rfl, hnd,
    (claim_C6 demoHeld 0 "A" 7 0).2 ⟨100, 10⟩ h1 (by norm_num) (Or.inl le_rfl) hnd⟩

/-- A `sell` whose clamped volume is non-zero succeeds and credits
`amount − commission − tax` at the clamped volume. -/
lemma sell_succeed (a : Account) (d : ℕ) (s : String) (p : ℚ) (v : ℤ)
    (pos : Position) (hl : List.lookup s a.holdings = some pos)
    (hv : (if v ≤ 0 ∨ pos.volume < v then pos.volume else v) ≠ 0) :
    (sell a d s p v).fst = true ∧
    (sell a d s p v).snd.cash =
      a.cash + (p * ((if v ≤ 0 ∨ pos.volume < v then pos.volume else v : ℤ) : ℚ)
        - calculate_commission a
            (p * ((if v ≤ 0 ∨ pos.volume < v then pos.volume else v : ℤ) : ℚ))
        - calculate_tax a
            (p * ((if v ≤ 0 ∨ pos.volume < v then pos.volume else v : ℤ) : ℚ))) := by
  simp only [sell, hl]
  rw [if_neg hv]
  exact ⟨rfl, rfl⟩

/-- Claim C7 (confirmed): with all fee rates zero, a buy of V shares at
price P followed by a sell of all V shares at P returns cash to exactly
the initial capital. -/
theorem claim_C7 (init P : ℚ) (V : ℤ) (s : String) (d1 d2 : ℕ)
    (hV : 0 < V) (hP : 0 < P) :
    ((sell (buy (zeroFee init) d1 s P V).snd d2 s P V).snd).cash = init := by
  have hcond : ¬(V ≤ 0 ∨ P ≤ 0) := by
    push_neg
    exact ⟨hV, hP⟩
  by_cases hc : (zeroFee init).cash < P * (V : ℚ) + calculate_commission (zeroFee init) (P * (V : ℚ))
  · -- insufficient cash: the buy fails, the sell finds no position, cash is untouched
    have hbuy : buy (zeroFee init) d1 s P V = (false, zeroFee init) := by
      simp only [buy, if_neg hcond, if_pos hc]
    rw [hbuy]
    have hlk : List.lookup s (zeroFee init).holdings = none := by
      simp [zeroFee, mkAccount]
    simp [sell, hlk, zeroFee, mkAccount]
  · -- the buy succeeds at total cost P·V, the sell credits P·V back
    have hhold : (buy (zeroFee init) d1 s P V).snd.holdings =
        [(s, ⟨V, (V : ℚ) * P / (V : ℚ)⟩)] := by
      simp only [buy, if_neg hcond, if_neg hc]
      simp [zeroFee, mkAccount, setPos]
    have hcash : (buy (zeroFee init) d1 s P V).snd.cash = init - P * (V : ℚ) := by
      simp only [buy, if_neg hcond, if_neg hc]
      simp [zeroFee, mkAccount, calculate_commission]
    have hcr : (buy (zeroFee init) d1 s P V).snd.commission_rate = 0 := by
      simp only [buy, if_neg hcond, if_neg hc]
      simp [zeroFee, mkAccount]
    have hmc : (buy (zeroFee init) d1 s P V).snd.min_commission = 0 := by
      simp only [buy, if_neg hcond, if_neg hc]
      simp [zeroFee, mkAccount]
    have hsd : (buy (zeroFee init) d1 s P V).snd.stamp_duty_rate = 0 := by
      simp only [buy, if_neg hcond, if_neg hc]
      simp [zeroFee, mkAccount]
    have hl2 : List.lookup s (buy (zeroFee init) d1 s P V).snd.holdings =
        some ⟨V, (V : ℚ) * P / (V : ℚ)⟩ := by
      rw [hhold]
      simp [List.lookup]
    have hproj : (⟨V, (V : ℚ) * P / (V : ℚ)⟩ : Position).volume = V := rfl
    have hv0 : (if V ≤ 0 ∨ (⟨V, (V : ℚ) * P / (V : ℚ)⟩ : Position).volume < V
        then (⟨V, (V : ℚ) * P / (V : ℚ)⟩ : Position).volume else V) ≠ 0 := by
      rw [hproj, ite_self]
      omega
    have hsell := (sell_succeed _ d2 s P V ⟨V, (V : ℚ) * P / (V : ℚ)⟩ hl2 hv0).2
    rw [hproj, ite_self] at hsell
    rw [hsell, hcash]
    simp [calculate_commission, calculate_tax, hcr, hmc, hsd]

/-- Witness for C7: initial capital 100000, buy then sell 100 shares at
price 10 with zero fees; cash is exactly 100000 again. -/
theorem claim_C7_witness :
    (0 : ℤ) < 100 ∧ (0 : ℚ) < 10 ∧
    ((sell (buy (zeroFee 100000) 1 "A" 10 100).snd 2 "A" 10 100).snd).cash = 100000 :=
  ⟨by norm_num, by norm_num, claim_C7 100000 10 100 "A" 1 2 (by norm_num) (by norm_num)⟩

/-- Claim C10 (confirmed): `sell` imposes no precondition on the price —
any sell of a held symbol succeeds and credits
`amount − commission − tax` at the clamped volume; concretely, selling
the held "A" position at price 0 charges the 5-unit minimum commission
and decreases cash. -/
theorem claim_C10 :
    (∀ (a : Account) (d : ℕ) (s : String) (p : ℚ) (v : ℤ) (pos : Position),
      List.lookup s a.holdings = some pos → 0 < pos.volume →
      (sell a d s p v).fst = true ∧
      (sell a d s p v).snd.cash =
        a.cash + (p * ((if v ≤ 0 ∨ pos.volume < v then pos.volume else v : ℤ) : ℚ)
          - calculate_commission a
              (p * ((if v ≤ 0 ∨ pos.volume < v then pos.volume else v : ℤ) : ℚ))
          - calculate_tax a
              (p * ((if v ≤ 0 ∨ pos.volume < v then pos.volume else v : ℤ) : ℚ)))) ∧
    ((sell demoHeld 0 "A" 0 0).fst = true ∧
      (sell demoHeld 0 "A" 0 0).snd.cash = demoHeld.cash - 5 ∧
      (sell demoHeld 0 "A" 0 0).snd.cash < demoHeld.cash) := by
  constructor
  · intro a d s p v pos hl hvol
    have hv : (if v ≤ 0 ∨ pos.volume < v then pos.volume else v) ≠ 0 := by
      split_ifs with h
      · omega
      · push_neg at h
        omega
    exact sell_succeed a d s p v pos hl hv
  · refine ⟨?_, ?_, ?_⟩ <;>
      norm_num [sell, demoHeld, mkAccount, List.lookup, calculate_commission,
        calculate_tax, erasePos]

/-- Witness for C10: selling 50 of the held 100 shares of "A" at price 3
succeeds and credits exactly `150 − commission − tax`. -/
theorem claim_C10_witness :
    List.lookup "A" demoHeld.holdings = some ⟨100, 10⟩ ∧
    (0 : ℤ) < (⟨100, 10⟩ : Position).volume ∧
    ((sell demoHeld 0 "A" 3 50).fst = true ∧
      (sell demoHeld 0 "A" 3 50).snd.cash =
        demoHeld.cash + (3 * ((if (50 : ℤ) ≤ 0 ∨ (⟨100, 10⟩ : Position).volume < 50
            then (⟨100, 10⟩ : Position).volume else 50 : ℤ) : ℚ)
          - calculate_commission demoHeld
              (3 * ((if (50 : ℤ) ≤ 0 ∨ (⟨100, 10⟩ : Position).volume < 50
                then (⟨100, 10⟩ : Position).volume else 50 : ℤ) : ℚ))
          - calculate_tax demoHeld
              (3 * ((if (50 : ℤ) ≤ 0 ∨ (⟨100, 10⟩ : Position).volume < 50
                then (⟨100, 10⟩ : Position).volume else 50 : ℤ) : ℚ)))) := by
  have h1 : List.lookup "A" demoHeld.holdings = some ⟨100, 10⟩ := by
    simp [demoHeld, mkAccount, List.lookup]
  exact ⟨h1, by norm_num, claim_C10.1 demoHeld 0 "A" 3 50 ⟨100, 10⟩ h1 (by norm_num)⟩

/-- Operation `buy` preserves non-negative cash: it only spends cash it verified is
available. -/
lemma buy_cash_nonneg (a : Account) (d : ℕ) (s : String) (p : ℚ) (v : ℤ)
    (h : 0 ≤ a.cash) : 0 ≤ (buy a d s p v).snd.cash := by
  by_cases h1 : v ≤ 0 ∨ p ≤ 0
  · simpa [buy, h1]
  · by_cases h2 : a.cash < p * (v : ℚ) + calculate_commission a (p * (v : ℚ))
    · simpa [buy, h1, h2]
    · push_neg at h2
      simp only [buy, if_neg h1, if_neg (not_lt.mpr h2)]
      show 0 ≤ a.cash - (p * (v : ℚ) + calculate_commission a (p * (v : ℚ)))
      linarith

/-- Operation `sell` changes cash by exactly `netIncome` (0 on its failure paths). -/
lemma sell_cash_eq (a : Account) (d : ℕ) (s : String) (p : ℚ) (v : ℤ) :
    (sell a d s p v).snd.cash = a.cash + netIncome a s p v := by
  rcases hl : List.lookup s a.holdings with _ | pos
  · simp [sell, netIncome, hl]
  · by_cases h1 : (if v ≤ 0 ∨ pos.volume < v then pos.volume else v) = 0
    · simp [sell, netIncome, hl, h1]
    · simp only [sell, netIncome, hl]
      rw [if_neg h1, if_neg h1]

/-- Claim C1 (corrected): cash stays non-negative along any sequence of
buy and sell calls in which every sell's gross proceeds cover its fees
(`netIncome ≥ 0` at its point in the trace).  Without that proviso the
claim is false: see the counterexample, where a sell at price 0 pushes
cash below zero by the 5-unit minimum commission. -/
theorem claim_C1 : ∀ (ops : List Op) (a : Account), 0 ≤ a.cash →
    sellsCoverFees a ops = true → 0 ≤ (runOps a ops).cash := by
  intro ops
  induction ops with
  | nil =>
    intro a h _
    simpa [runOps] using h
  | cons op t ih =>
    intro a h hc
    simp only [sellsCoverFees, Bool.and_eq_true] at hc
    have hstep : 0 ≤ (applyOp a op).cash := by
      cases op with
      | opBuy d s p v => exact buy_cash_nonneg a d s p v h
      | opSell d s p v =>
        have hnet : 0 ≤ netIncome a s p v := of_decide_eq_true hc.1
        have := sell_cash_eq a d s p v
        simp only [applyOp, this]
        linarith
    have hrw : runOps a (op :: t) = runOps (applyOp a op) t := by
      simp [runOps]
    rw [hrw]
    exact ih (applyOp a op) hstep hc.2

/-- Counterexample for C1 as stated: buy 1000 shares at price 1 from
initial capital 1005 (cash is spent to exactly 0), then sell everything
at price 0 — the sell succeeds, is charged the 5-unit minimum commission,
and cash ends at −5 < 0. -/
theorem claim_C1_counterexample :
    (runOps (mkAccount 1005) [.opBuy 0 "A" 1 1000, .opSell 1 "A" 0 0]).cash < 0 := by
  norm_num [runOps, applyOp, buy, sell, mkAccount, calculate_commission, calculate_tax,
    setPos, erasePos, List.lookup, List.foldl]

/-- Witness for C1: the same trace but selling at price 1 (proceeds 1000
cover the 6 units of fees); cash stays non-negative throughout. -/
theorem claim_C1_witness :
    0 ≤ (mkAccount 1005).cash ∧
    sellsCoverFees (mkAccount 1005) [.opBuy 0 "A" 1 1000, .opSell 1 "A" 1 0] = true ∧
    0 ≤ (runOps (mkAccount 1005) [.opBuy 0 "A" 1 1000, .opSell 1 "A" 1 0]).cash := by
  have h0 : 0 ≤ (mkAccount 1005).cash := by
    norm_num [mkAccount]
  have hsc : sellsCoverFees (mkAccount 1005) [.opBuy 0 "A" 1 1000, .opSell 1 "A" 1 0] = true := by
    norm_num [sellsCoverFees, applyOp, netIncome, buy, sell, mkAccount,
      calculate_commission, calculate_tax, setPos, erasePos, List.lookup]
  exact ⟨h0, hsc, claim_C1 [.opBuy 0 "A" 1 1000, .opSell 1 "A" 1 0] (mkAccount 1005) h0 hsc⟩

/-- The two holdings-valuation folds (truthiness-guarded in
`update_daily_stats`, defaulted `get` in `get_total_value`) agree as long
as no held symbol is mapped to price 0. -/
lemma holdings_value_fold_eq (prices : List (String × ℚ)) :
    ∀ (l : List (String × Position)) (acc : ℚ),
      (∀ kv ∈ l, List.lookup kv.fst prices ≠ some 0) →
      l.foldl (fun acc kv =>
        match List.lookup kv.fst prices with
        | some p => if p ≠ 0 then acc + (kv.snd.volume : ℚ) * p
                    else acc + (kv.snd.volume : ℚ) * kv.snd.cost_price
        | none => acc + (kv.snd.volume : ℚ) * kv.snd.cost_price) acc =
      l.foldl (fun acc kv =>
        acc + (kv.snd.volume : ℚ) * ((List.lookup kv.fst prices).getD kv.snd.cost_price)) acc := by
  intro l
  induction l with
  | nil =>
    intro acc _
    rfl
  | cons kv t ih =>
    intro acc h
    have hkv : List.lookup kv.fst prices ≠ some 0 := h kv (List.mem_cons_self kv t)
    have ht : ∀ x ∈ t, List.lookup x.fst prices ≠ some 0 :=
      fun x hx => h x (List.mem_cons_of_mem kv hx)
    simp only [List.foldl_cons]
    rcases hl : List.lookup kv.fst prices with _ | p
    · simpa using ih (acc + (kv.snd.volume : ℚ) * kv.snd.cost_price) ht
    · have hp : p ≠ 0 := by
        intro h0
        exact hkv (by rw [hl, h0])
      simpa [hp] using ih (acc + (kv.snd.volume : ℚ) * p) ht

/-- On maps that never send a held symbol to 0, both valuation rules
agree. -/
lemma holdings_value_eq (holdings : List (String × Position))
    (prices : List (String × ℚ))
    (h : ∀ kv ∈ holdings, List.lookup kv.fst prices ≠ some 0) :
    holdings_value_truthy holdings prices = holdings_value_getD holdings prices :=
  holdings_value_fold_eq prices holdings 0 h

/-- Claim C3 (corrected): `get_total_value` is a pure query and
`update_daily_stats` mutates only the history; the two agree on the
recorded `total_value` for every mark-price map that does not map a held
symbol to price 0.  (On a map carrying price 0 for a held symbol they
disagree — see the counterexample — because the Python guard `if price:`
treats 0 as missing while `get` with a default does not.) -/
theorem claim_C3 (a : Account) (d : ℕ) (prices : List (String × ℚ))
    (h : ∀ kv ∈ a.holdings, List.lookup kv.fst prices ≠ some 0) :
    (update_daily_stats a d prices).cash = a.cash ∧
    (update_daily_stats a d prices).holdings = a.holdings ∧
    (update_daily_stats a d prices).trades = a.trades ∧
    ((update_daily_stats a d prices).history.getLast?).map Snapshot.total_value =
      some (get_total_value a prices) := by
  refine ⟨rfl, rfl, rfl, ?_⟩
  simp [update_daily_stats, get_total_value, holdings_value_eq a.holdings prices h]

/-- Counterexample for C3 as stated: holding 100 shares of "A" at cost 10
with cash 500, the map `{"A": 0}` makes `get_total_value` return 500
(marking the shares at 0), while `update_daily_stats` records 1500
(falling back to cost because 0 is falsy). -/
theorem claim_C3_counterexample :
    get_total_value demoHeld [("A", 0)] = 500 ∧
    ((update_daily_stats demoHeld 0 [("A", 0)]).history.getLast?).map Snapshot.total_value =
      some 1500 ∧
    (500 : ℚ) ≠ 1500 := by
  refine ⟨?_, ?_, by norm_num⟩ <;>
    norm_num [get_total_value, update_daily_stats, holdings_value_truthy,
      holdings_value_getD, demoHeld, mkAccount, List.lookup]

/-- Witness for C3: the same held account with the non-degenerate map
`{"A": 12}`; both functions price the position at 12 and agree. -/
theorem claim_C3_witness :
    (∀ kv ∈ demoHeld.holdings, List.lookup kv.fst [("A", (12 : ℚ))] ≠ some 0) ∧
    ((update_daily_stats demoHeld 0 [("A", 12)]).cash = demoHeld.cash ∧
      (update_daily_stats demoHeld 0 [("A", 12)]).holdings = demoHeld.holdings ∧
      (update_daily_stats demoHeld 0 [("A", 12)]).trades = demoHeld.trades ∧
      ((update_daily_stats demoHeld 0 [("A", 12)]).history.getLast?).map Snapshot.total_value =
        some (get_total_value demoHeld [("A", 12)])) := by
  have h : ∀ kv ∈ demoHeld.holdings, List.lookup kv.fst [("A", (12 : ℚ))] ≠ some 0 := by
    intro kv hkv
    simp only [demoHeld, mkAccount, List.mem_singleton] at hkv
    subst hkv
    simp [List.lookup]
  exact ⟨h, claim_C3 demoHeld 0 [("A", 12)] h⟩

/-- Claim C4 (corrected): with no position and the entry condition
(score ≥ 75, close above MA20) holding, the engine sizes the order at 95%
of cash rounded down to a 100-share lot, but the 2000 minimum is checked
on the pre-rounding amount 0.95·cash (and the lot volume must be
positive): the buy is skipped exactly when 0.95·cash ≤ 2000 or the
rounded volume is 0, not when the rounded notional is below 2000. -/
theorem claim_C4 (a : Account) (row : Row) (s : String)
    (hpos : ((List.lookup s a.holdings).getD ⟨0, 0⟩).volume = 0)
    (hscore : 75 ≤ row.score) (hma : row.ma20 < row.close) :
    (a.cash * (95 / 100) ≤ 2000 → singleDecision s a row = a) ∧
    (truncQ (a.cash * (95 / 100) / row.close / 100) * 100 ≤ 0 →
      singleDecision s a row = a) ∧
    (2000 < a.cash * (95 / 100) →
      0 < truncQ (a.cash * (95 / 100) / row.close / 100) * 100 →
      singleDecision s a row =
        (buy a row.date s row.close
          (truncQ (a.cash * (95 / 100) / row.close / 100) * 100)).snd) := by
  refine ⟨?_, ?_, ?_⟩
  · intro hle
    simp only [singleDecision, hpos]
    rw [if_pos trivial, if_pos ⟨hscore, hma⟩, if_neg (not_lt.mpr hle)]
  · intro hv
    simp only [singleDecision, hpos]
    rw [if_pos trivial, if_pos ⟨hscore, hma⟩]
    by_cases h2 : 2000 < a.cash * (95 / 100)
    · rw [if_pos h2, if_neg (not_lt.mpr hv)]
    · rw [if_neg h2]
  · intro h2 hv
    simp only [singleDecision, hpos]
    rw [if_pos trivial, if_pos ⟨hscore, hma⟩, if_pos h2, if_pos hv]

/-- Counterexample for C4 as stated: cash 2200, close 15, qualifying
signal.  0.95·2200 = 2090 > 2000 passes the code's check, the lot
rounding yields 100 shares, and the executed buy's notional is
100·15 = 1500 < 2000 — a buy with notional below 2000 executes. -/
theorem claim_C4_counterexample :
    (singleDecision "S" (mkAccount 2200) ⟨0, 15, 10, 1, 80⟩).trades.map Trade.amount =
      [1500] ∧ (1500 : ℚ) < 2000 := by
  constructor
  · norm_num [singleDecision, buy, mkAccount, truncQ, calculate_commission,
      List.lookup, setPos]
  · norm_num

/-- Witness for C4: cash 1000 (so 0.95·cash = 950 ≤ 2000) with a
qualifying signal — the buy is skipped, the account unchanged. -/
theorem claim_C4_witness :
    ((List.lookup "S" (mkAccount 1000).holdings).getD ⟨0, 0⟩).volume = 0 ∧
    (75 : ℚ) ≤ (Row.mk 0 15 10 1 80).score ∧
    (Row.mk 0 15 10 1 80).ma20 < (Row.mk 0 15 10 1 80).close ∧
    singleDecision "S" (mkAccount 1000) (Row.mk 0 15 10 1 80) = mkAccount 1000 := by
  have h1 : ((List.lookup "S" (mkAccount 1000).holdings).getD ⟨0, 0⟩).volume = 0 := by
    simp [mkAccount]
  refine ⟨h1, by norm_num, by norm_num, ?_⟩
  exact (claim_C4 (mkAccount 1000) (Row.mk 0 15 10 1 80) "S" h1 (by norm_num)
    (by norm_num)).1 (by norm_num [mkAccount])

/-- Operation `buy` never touches the equity history. -/
lemma buy_history (a : Account) (d : ℕ) (s : String) (p : ℚ) (v : ℤ) :
    (buy a d s p v).snd.history = a.history := by
  by_cases h1 : v ≤ 0 ∨ p ≤ 0
  · simp [buy, h1]
  · by_cases h2 : a.cash < p * (v : ℚ) + calculate_commission a (p * (v : ℚ))
    · simp [buy, h1, h2]
    · simp [buy, h1, h2]

/-- Operation `sell` never touches the equity history. -/
lemma sell_history (a : Account) (d : ℕ) (s : String) (p : ℚ) (v : ℤ) :
    (sell a d s p v).snd.history = a.history := by
  rcases hl : List.lookup s a.holdings with _ | pos
  · simp [sell, hl]
  · by_cases h1 : (if v ≤ 0 ∨ pos.volume < v then pos.volume else v) = 0
    · simp [sell, hl, h1]
    · simp only [sell, hl]
      rw [if_neg h1]

/-- The decision phase never touches the equity history. -/
lemma singleDecision_history (s : String) (a : Account) (r : Row) :
    (singleDecision s a r).history = a.history := by
  simp only [singleDecision]
  split_ifs <;> simp [buy_history, sell_history]

/-- Each simulated day appends exactly one snapshot. -/
lemma singleDay_history_len (s : String) (a : Account) (r : Row) :
    (singleDay s a r).history.length = a.history.length + 1 := by
  simp [singleDay, update_daily_stats, singleDecision_history]

/-- The day loop appends one snapshot per simulated day. -/
lemma foldl_singleDay_history_len (s : String) :
    ∀ (l : List Row) (a : Account),
      (l.foldl (singleDay s) a).history.length = a.history.length + l.length := by
  intro l
  induction l with
  | nil =>
    intro a
    simp
  | cons r t ih =>
    intro a
    rw [List.foldl_cons, ih (singleDay s a r), singleDay_history_len, List.length_cons]
    omega

/-- Claim C5 (corrected): with at least 60 bars, when the date range
contains no trading date `run` returns the empty result (not a result
carrying `final_value = initial_capital`); when it contains at least one,
the result carries the trade count, the full (non-empty) equity history,
and `final_value` equal to the last snapshot's `total_value`. -/
theorem claim_C5 (symbol : String) (bars : List Row) (startD endD : ℕ)
    (a : Account) (h60 : 60 ≤ bars.length) :
    (bars.filter (fun r => decide (startD ≤ r.date) && decide (r.date ≤ endD)) = [] →
      (run symbol bars startD endD a).fst = none) ∧
    (bars.filter (fun r => decide (startD ≤ r.date) && decide (r.date ≤ endD)) ≠ [] →
      ∃ res, (run symbol bars startD endD a).fst = some res ∧
        res.history = ((run symbol bars startD endD a).snd).history ∧
        res.trades = ((run symbol bars startD endD a).snd).trades.length ∧
        res.history ≠ [] ∧
        ∃ snap, res.history.getLast? = some snap ∧
          res.final_value = snap.total_value) := by
  have hlen : ¬bars.length < 60 := by omega
  constructor
  · intro hf
    simp [run, hlen, hf]
  · intro hf
    set sim := bars.filter (fun r => decide (startD ≤ r.date) && decide (r.date ≤ endD))
      with hsim
    have hrun : run symbol bars startD endD a =
        (some
          { final_value :=
              match (sim.foldl (singleDay symbol) a).history.getLast? with
              | some s => s.total_value
              | none => (sim.foldl (singleDay symbol) a).initial_capital
            trades := (sim.foldl (singleDay symbol) a).trades.length
            history := (sim.foldl (singleDay symbol) a).history },
          sim.foldl (singleDay symbol) a) := by
      simp only [run, if_neg hlen]
      rw [if_neg (by simp [List.isEmpty_iff, hf])]
    have hne : (sim.foldl (singleDay symbol) a).history ≠ [] := by
      apply List.ne_nil_of_length_pos
      rw [foldl_singleDay_history_len symbol sim a]
      have : 0 < sim.length := List.length_pos.mpr hf
      omega
    obtain ⟨snap, hsnap⟩ : ∃ snap,
        ((sim.foldl (singleDay symbol) a).history).getLast? = some snap :=
      ⟨_, List.getLast?_eq_getLast _ hne⟩
    rw [hrun]
    refine ⟨_, rfl, rfl, rfl, hne, snap, hsnap, ?_⟩
    show (match (sim.foldl (singleDay symbol) a).history.getLast? with
          | some s => s.total_value
          | none => (sim.foldl (singleDay symbol) a).initial_capital) = snap.total_value
    rw [hsnap]

/-- Counterexample for C5 as stated: 60 bars dated 0–59 but the range
[100, 200] — no trading dates, and `run` returns the empty result rather
than one with `final_value = initial_capital`. -/
theorem claim_C5_counterexample :
    (run "S" demoBars 100 200 (mkAccount 100000)).fst = none := by
  have hlen : ¬demoBars.length < 60 := by simp [demoBars]
  have hf : demoBars.filter (fun r => decide (100 ≤ r.date) && decide (r.date ≤ 200)) = [] := by
    rw [List.filter_eq_nil_iff]
    intro r hr
    simp only [demoBars, List.mem_map, List.mem_range] at hr
    obtain ⟨i, hi, rfl⟩ := hr
    simp only [Bool.and_eq_true, decide_eq_true_eq, not_and]
    intro h100
    omega
  simp [run, hlen, hf]

/-- Witness for C5: the same 60 bars with the range [0, 59] — all 60 days
simulate, and the result has the promised shape. -/
theorem claim_C5_witness :
    60 ≤ demoBars.length ∧
    demoBars.filter (fun r => decide (0 ≤ r.date) && decide (r.date ≤ 59)) ≠ [] ∧
    (∃ res, (run "S" demoBars 0 59 (mkAccount 100000)).fst = some res ∧
      res.history = ((run "S" demoBars 0 59 (mkAccount 100000)).snd).history ∧
      res.trades = ((run "S" demoBars 0 59 (mkAccount 100000)).snd).trades.length ∧
      res.history ≠ [] ∧
      ∃ snap, res.history.getLast? = some snap ∧
        res.final_value = snap.total_value) := by
  have h60 : 60 ≤ demoBars.length := by
    simp [demoBars]
  have hf : demoBars.filter (fun r => decide (0 ≤ r.date) && decide (r.date ≤ 59)) ≠ [] := by
    have : demoBars.filter (fun r => decide (0 ≤ r.date) && decide (r.date ≤ 59)) = demoBars := by
      rw [List.filter_eq_self]
      intro r hr
      simp only [demoBars, List.mem_map, List.mem_range] at hr
      obtain ⟨i, hi, rfl⟩ := hr
      simp only [Bool.and_eq_true, decide_eq_true_eq]
      omega
    rw [this]
    simp [demoBars]
  exact ⟨h60, hf, (claim_C5 "S" demoBars 0 59 (mkAccount 100000) h60).2 hf⟩

/-- Claim C8 (confirmed): portfolio-mode candidates are ranked by
`(score, volume_ratio)` descending — the ranking is a sorted permutation
of the collected candidates and buys are attempted for the top ranked
ones in order.  Concretely: score 85 beats score 80 regardless of volume
ratio (the pool order even favours the 80), and at equal score 85 the
volume ratio 2.0 beats 1.5 (the pool order even favours the 1.5). -/
theorem claim_C8 :
    (∀ l : List Cand, (sortCands l).Perm l ∧ List.Sorted candGe (sortCands l)) ∧
    (buyPhase 0 ["A", "B"] dayRowScore 3 (mkAccount 100000)).trades.map Trade.symbol =
      ["B", "A"] ∧
    (buyPhase 0 ["B", "A"] dayRowTie 3 (mkAccount 100000)).trades.map Trade.symbol =
      ["A", "B"] := by
  refine ⟨fun l => ⟨List.perm_insertionSort candGe l, List.sorted_insertionSort candGe l⟩,
    ?_, ?_⟩
  · norm_num [buyPhase, collectCands, sortCands, buyLoop, dayRowScore, mkAccount, buy,
      calculate_commission, truncQ, List.lookup, setPos, List.insertionSort,
      List.orderedInsert, candGe, List.foldl_cons, List.foldl_nil, List.filterMap_cons,
      Int.toNat]
  · norm_num [buyPhase, collectCands, sortCands, buyLoop, dayRowTie, mkAccount, buy,
      calculate_commission, truncQ, List.lookup, setPos, List.insertionSort,
      List.orderedInsert, candGe, List.foldl_cons, List.foldl_nil, List.filterMap_cons,
      Int.toNat]

/-- A left fold with `min` never exceeds its accumulator. -/
lemma foldl_min_le : ∀ (l : List ℚ) (acc : ℚ), l.foldl min acc ≤ acc := by
  intro l
  induction l with
  | nil =>
    intro acc
    exact le_rfl
  | cons x t ih =>
    intro acc
    exact le_trans (ih (min acc x)) (min_le_left acc x)

/-- The drawdown series starts at 0 (the first value is its own peak), so
its minimum is never positive. -/
lemma listMin_drawdowns_nonpos (v : ℚ) (t : List ℚ) :
    listMin (drawdowns (v :: t)) ≤ 0 := by
  simp only [drawdowns, drawdownsAux, max_self, sub_self, zero_div, listMin]
  exact foldl_min_le _ 0

/-- Half-to-even rounding keeps non-positive inputs non-positive. -/
lemma roundHalfEven_nonpos (q : ℚ) (h : q ≤ 0) : roundHalfEven q ≤ 0 := by
  have hf0 : ⌊q⌋ ≤ 0 := le_trans (Int.floor_le_floor h) (by simp)
  have hup : ¬(q - (⌊q⌋ : ℚ) < 1 / 2) → ⌊q⌋ + 1 ≤ 0 := by
    intro h1
    push_neg at h1
    have hlt : (⌊q⌋ : ℚ) < 0 := by linarith
    have : ⌊q⌋ < 0 := by exact_mod_cast hlt
    omega
  simp only [roundHalfEven]
  split_ifs with h1 h2 h3
  · exact hf0
  · exact hup h1
  · exact hf0
  · exact hup h1

/-- Rounding `round(x, 2)` keeps non-positive inputs non-positive. -/
lemma round2_nonpos (q : ℚ) (h : q ≤ 0) : round2 q ≤ 0 := by
  have h1 : roundHalfEven (q * 100) ≤ 0 := roundHalfEven_nonpos _ (by linarith)
  have h2 : ((roundHalfEven (q * 100) : ℤ) : ℚ) ≤ 0 := by exact_mod_cast h1
  unfold round2
  linarith

/-- Claim C9 (corrected): for every non-empty history the reported
`max_drawdown_pct` is the minimum of the running-peak drawdowns times
100, **then rounded to two decimals half-to-even** (tiny drawdowns are
rounded away — see the counterexample); it is always ≤ 0, and the
equity sequence 100000, 120000, 90000, 110000 yields exactly −25.0. -/
theorem claim_C9 :
    (∀ (h : List Snapshot) (init : ℚ), h ≠ [] →
      ∃ m, calculate_performance_metrics h init = some m ∧
        m.max_drawdown_pct =
          round2 (listMin (drawdowns (h.map Snapshot.total_value)) * 100) ∧
        m.max_drawdown_pct ≤ 0) ∧
    (calculate_performance_metrics demoHist 100000).map Metrics.max_drawdown_pct =
      some (-25) := by
  constructor
  · intro h init hne
    rcases h with _ | ⟨v, t⟩
    · exact absurd rfl hne
    refine ⟨_, rfl, rfl, ?_⟩
    show round2 (listMin (drawdowns ((v :: t).map Snapshot.total_value)) * 100) ≤ 0
    rw [List.map_cons]
    apply round2_nonpos
    have := listMin_drawdowns_nonpos v.total_value (t.map Snapshot.total_value)
    nlinarith
  · norm_num [calculate_performance_metrics, demoHist, drawdowns, drawdownsAux,
      listMin, round2, roundHalfEven]

/-- Counterexample for C9 as stated: the equity sequence
[100000, 99999] has exact minimum drawdown −0.001 percent, but the code
reports `round(−0.001, 2) = 0`, not the exact minimum. -/
theorem claim_C9_counterexample :
    (calculate_performance_metrics demoHist2 100000).map Metrics.max_drawdown_pct =
      some 0 ∧
    listMin (drawdowns (demoHist2.map Snapshot.total_value)) * 100 = -(1 / 1000) ∧
    (0 : ℚ) ≠ -(1 / 1000) := by
  refine ⟨?_, ?_, by norm_num⟩ <;>
    norm_num [calculate_performance_metrics, demoHist2, drawdowns, drawdownsAux,
      listMin, round2, roundHalfEven]

/-- Witness for C9: the four-point example history is non-empty and the
theorem instantiates on it. -/
theorem claim_C9_witness :
    demoHist ≠ [] ∧
    ∃ m, calculate_performance_metrics demoHist 100000 = some m ∧
      m.max_drawdown_pct =
        round2 (listMin (drawdowns (demoHist.map Snapshot.total_value)) * 100) ∧
      m.max_drawdown_pct ≤ 0 := by
  have hne : demoHist ≠ [] := by simp [demoHist]
  exact ⟨hne, claim_C9.1 demoHist 100000 hne⟩

end ADailyQuant
